import Mathlib

/-!
Verification of the structured free-text parser in `llm_gemini.py`
(`GeminiClient._parse_structured_output`, `summarize_abstract`,
`_build_summarization_prompt`, `_get_empty_insight`).

Strings are modelled as Lean `String`; the character-level operations that
Python performs (`strip`, `lstrip`, `split`, slicing) are defined below on
`List Char` and wrapped, mirroring the Python semantics.
-/

namespace ResearchAuto

/-- Whitespace characters recognized by Python `str.strip()` (ASCII range). -/
def isPySpace (c : Char) : Bool :=
  c = ' ' || c = '\t' || c = '\n' || c = '\r' || c = '\x0b' || c = '\x0c'

/-- Drop trailing characters satisfying `p`. -/
def dropTrail (p : Char → Bool) (l : List Char) : List Char :=
  (l.reverse.dropWhile p).reverse

/-- Python `s.strip()` on a character list: drop leading and trailing whitespace. -/
def stripChars (l : List Char) : List Char :=
  dropTrail isPySpace (l.dropWhile isPySpace)

/-- Python `s.strip()`. -/
def pyStrip (s : String) : String :=
  String.mk (stripChars s.data)

/-- Boolean check that `p` is a leading segment of `s` (character lists). -/
def hasPreL : List Char → List Char → Bool
  | [], _ => true
  | _ :: _, [] => false
  | a :: as, b :: bs => a = b && hasPreL as bs

/-- Python `s.startswith(p)`. -/
def hasPre (p s : String) : Bool :=
  hasPreL p.data s.data

/-- Extend the first piece of a split result with one character. -/
def consHead (c : Char) : List (List Char) → List (List Char)
  | [] => [[c]]
  | h :: t => (c :: h) :: t

/-- Python `s.split(sep)` for a one-character separator (keeps empty pieces). -/
def splitOn1 (sep : Char) : List Char → List (List Char)
  | [] => [[]]
  | c :: rest =>
      if c = sep then [] :: splitOn1 sep rest
      else consHead c (splitOn1 sep rest)

/-- Python `s.split("\n\n")`: split on the two-character blank-line separator. -/
def splitPara : List Char → List (List Char)
  | [] => [[]]
  | '\n' :: '\n' :: rest => [] :: splitPara rest
  | c :: rest => consHead c (splitPara rest)

/-- Python `s.lstrip(chars)`: drop leading characters belonging to the set. -/
def lstripSet (set : Char → Bool) (s : String) : String :=
  String.mk (s.data.dropWhile set)

/-- The character set of `line.lstrip("-* ")`. -/
def bulletChar (c : Char) : Bool := c = '-' || c = '*' || c = ' '

/-- The character set of `line.lstrip("- ")`. -/
def dashSpace (c : Char) : Bool := c = '-' || c = ' '

/-- Python `c in s`. -/
def containsChar (c : Char) (s : String) : Bool :=
  s.data.contains c

/-- Python `s[:n]` (first `n` characters). -/
def strTake (n : Nat) (s : String) : String :=
  String.mk (s.data.take n)

/-- Python `" ".join(l)`. -/
def joinSpace : List String → String
  | [] => ""
  | [s] => s
  | s :: rest => s ++ " " ++ joinSpace rest

/-- Python `", ".join(l)`. -/
def joinCommaSpace : List String → String
  | [] => ""
  | [s] => s
  | s :: rest => s ++ ", " ++ joinCommaSpace rest

/-- Everything after the first `:` of `s` (empty if there is no colon),
    as used by `line.split(":", 1)[1]`. -/
def afterColon (s : String) : String :=
  String.mk ((s.data.dropWhile (fun c => c ≠ ':')).drop 1)

/-- Python `raw_output.split("\n")` as a list of strings. -/
def linesOf (s : String) : List String :=
  (splitOn1 '\n' s.data).map String.mk

/-- The result dictionary of `_parse_structured_output` / `_get_empty_insight`. -/
structure InsightRecord where
  insight_summary : String
  key_innovations : List String
  novel_methods : List String
  potential_applications : List String
  extracted_keywords : List String
deriving Repr, DecidableEq

/-- The five values taken by `current_section` once set (it starts at `None`,
    modelled as `Option Section`). -/
inductive Section where
  | summary
  | innovations
  | methods
  | applications
  | keywords
deriving Repr, DecidableEq

/-- The loop state of `_parse_structured_output`: the result dictionary being
    built, `current_section`, and the accumulation buffer `current_text`. -/
structure ParseState where
  result : InsightRecord
  current_section : Option Section
  current_text : List String
deriving Repr, DecidableEq

/-- The initial result dictionary (all fields empty). -/
def initRecord : InsightRecord :=
  { insight_summary := ""
    key_innovations := []
    novel_methods := []
    potential_applications := []
    extracted_keywords := [] }

/-- Writing the buffer into the field of a given section, exactly as each
    flush site of `_parse_structured_output` does: the summary is joined with
    spaces and stripped, the three bulleted sections keep the non-empty items,
    and the keywords are truncated to the first 8 entries. -/
def recordSetFlush : Section → List String → InsightRecord → InsightRecord
  | Section.summary, buf, r =>
      { r with insight_summary := pyStrip (joinSpace buf) }
  | Section.innovations, buf, r =>
      { r with key_innovations := buf.filter (fun item => item ≠ "") }
  | Section.methods, buf, r =>
      { r with novel_methods := buf.filter (fun item => item ≠ "") }
  | Section.applications, buf, r =>
      { r with potential_applications := buf.filter (fun item => item ≠ "") }
  | Section.keywords, buf, r =>
      { r with extracted_keywords := buf.take 8 }

/-- The comma-splitting of the keywords section:
    `[kw.strip() for kw in text.split(",") if kw.strip()]`. -/
def kwTokens (s : String) : List String :=
  ((splitOn1 ',' s.data).map (fun p => String.mk (stripChars p))).filter
    (fun k => k ≠ "")

/-- The header-detection `if/elif` chain of `_parse_structured_output`, in
    source order, as a lookup from a stripped line to the section whose header
    it starts with (the two "Novel Methods" variants are synonyms). -/
def headerTarget (line : String) : Option Section :=
  if hasPre "Insight Summary:" line then some Section.summary
  else if hasPre "Key Innovations:" line then some Section.innovations
  else if hasPre "Novel Methods / Techniques:" line || hasPre "Novel Methods:" line then
    some Section.methods
  else if hasPre "Potential Applications:" line then some Section.applications
  else if hasPre "Extracted Keywords:" line then some Section.keywords
  else none

/-- The section whose buffered content a given header's branch is willing to
    flush: each header branch of the source checks that `current_section` is
    exactly the section canonically preceding it in the template order (the
    summary header flushes nothing). -/
def canonPred : Section → Option Section
  | Section.summary => none
  | Section.innovations => some Section.summary
  | Section.methods => some Section.innovations
  | Section.applications => some Section.methods
  | Section.keywords => some Section.applications

/-- The items a non-header (content) line contributes to `current_text`,
    dispatched on `current_section` exactly as the loop body does: free text
    for the summary, bullet-only lines for the three bulleted sections,
    dash- or comma-splitting for the keywords, nothing before any header. -/
def contentItems (sec : Option Section) (line : String) : List String :=
  match sec with
  | some Section.summary => if line ≠ "" then [line] else []
  | some Section.innovations | some Section.methods | some Section.applications =>
      if hasPre "-" line || hasPre "*" line then
        let item := pyStrip (lstripSet bulletChar line)
        if item ≠ "" then [item] else []
      else []
  | some Section.keywords =>
      if hasPre "-" line then kwTokens (pyStrip (lstripSet dashSpace line))
      else if containsChar ',' line then kwTokens line
      else []
  | none => []

/-- The body of the `for line in lines` loop of `_parse_structured_output`,
    processing one raw line: a recognized header flushes the buffer into the
    field of its canonical predecessor section (when that section is current
    and the buffer non-empty), switches section and resets the buffer (seeding
    it, for the summary header only, with the text after the colon); any other
    line appends its contributed items to the buffer. -/
def processLine (st : ParseState) (rawLine : String) : ParseState :=
  let line := pyStrip rawLine
  match headerTarget line with
  | some Section.summary =>
      let seed := pyStrip (afterColon line)
      { st with
        current_section := some Section.summary
        current_text := if seed ≠ "" then [seed] else [] }
  | some s =>
      { result :=
          match canonPred s with
          | some p =>
              if st.current_section = some p ∧ st.current_text ≠ [] then
                recordSetFlush p st.current_text st.result
              else st.result
          | none => st.result
        current_section := some s
        current_text := [] }
  | none =>
      { st with current_text := st.current_text ++ contentItems st.current_section line }

/-- The "Save final section" block after the loop. -/
def finalFlush (st : ParseState) : InsightRecord :=
  match st.current_section with
  | some s => if st.current_text ≠ [] then recordSetFlush s st.current_text st.result
              else st.result
  | none => st.result

/-- The first fallback block after the scan: if the summary is still empty,
    split the raw output on blank-line boundaries, strip each paragraph,
    discard the empty ones, and use the first survivor truncated to 500
    characters. -/
def firstParagraphFill (raw_output : String) (r : InsightRecord) : InsightRecord :=
  if r.insight_summary = "" then
    match ((splitPara raw_output.data).map (fun p => String.mk (stripChars p))).filter
        (fun p => p ≠ "") with
    | [] => r
    | p :: _ => { r with insight_summary := strTake 500 p }
  else r

/-- The second fallback block: if the summary is still empty, use the fixed
    placeholder string. -/
def finalGuard (r : InsightRecord) : InsightRecord :=
  if r.insight_summary = "" then
    { r with insight_summary := "Unable to generate insight summary." }
  else r

/-- The post-scan fallback of `_parse_structured_output`: the two sequential
    `if not result["insight_summary"]` blocks. -/
def paraFallback (raw_output : String) (r : InsightRecord) : InsightRecord :=
  finalGuard (firstParagraphFill raw_output r)

/-- The function `GeminiClient._parse_structured_output`. -/
def _parse_structured_output (raw_output : String) : InsightRecord :=
  paraFallback raw_output
    (finalFlush ((linesOf raw_output).foldl processLine
      { result := initRecord, current_section := none, current_text := [] }))

/-- The function `GeminiClient._get_empty_insight`. -/
def _get_empty_insight : InsightRecord :=
  { insight_summary := "No abstract available for summarization."
    key_innovations := []
    novel_methods := []
    potential_applications := []
    extracted_keywords := [] }

/-- The function `GeminiClient._build_summarization_prompt`: the fixed instruction template
    with the abstract substituted.  (The `â€“` sequence
    reproduces the mojibake characters literally present in the source file.) -/
def _build_summarization_prompt (abstract : String) : String :=
  "You are an expert research analyst specializing in Energy Technology and AI.\nAnalyze the following arXiv paper abstract and generate an insight-oriented summary.\n\nYour task:\n- Do NOT rewrite the abstract\n- Identify what is truly new or innovative\n- Explain potential impact in practical energy systems\n- Extract meaningful technical keywords (not generic terms)\n\nAbstract:\n"
  ++ abstract ++
  "\n\nGenerate your response in the EXACT format below (do not deviate):\n\nInsight Summary:\n<2â€“4 sentences written as an expert insight, focusing on innovation, novelty, and impact>\n\nKey Innovations:\n- <bullet point 1>\n- <bullet point 2>\n\nNovel Methods / Techniques:\n- <bullet point 1>\n- <bullet point 2>\n\nPotential Applications:\n- <bullet point 1>\n- <bullet point 2>\n\nExtracted Keywords:\n- keyword1, keyword2, keyword3, keyword4, keyword5\n"

/-- The method `GeminiClient.summarize_abstract`, parameterized over the upstream
    text-generation call (`self.model.generate_content` + `.text`, which may
    raise, modelled as `Except`) and over the parsing function it forwards
    to, so that non-invocation of either collaborator is expressible. -/
def summarize_core (gen : String → Except String String)
    (parse : String → InsightRecord) (abstract : String) : InsightRecord :=
  if pyStrip abstract = "" then _get_empty_insight
  else
    match gen (_build_summarization_prompt abstract) with
    | Except.ok text => parse (pyStrip text)
    | Except.error e =>
        { _get_empty_insight with
          insight_summary :=
            "Error generating summary: " ++ e ++ ". Please check API key and network connection." }

/-- The method `GeminiClient.summarize_abstract` with the parser fixed to
    `_parse_structured_output`, as in the source. -/
def summarize_abstract (gen : String → Except String String)
    (abstract : String) : InsightRecord :=
  summarize_core gen _parse_structured_output abstract

/-- Python `"\n".join(l)`. -/
def joinNL : List String → String
  | [] => ""
  | [s] => s
  | s :: rest => s ++ "\n" ++ joinNL rest

/-- Modelled from the spec: the repository has no serializer for an
    `InsightRecord`, so the round-trip claim's "re-serialized to the same
    template" is modelled after the five-section template that
    `_build_summarization_prompt` requests — each header on its own line, the
    summary on the line after its header, one `- ` bullet per item, and the
    keywords on a single dash line separated by comma-space.  These are the
    lines of that serialization, in template order. -/
def serializeLines (r : InsightRecord) : List String :=
  ["Insight Summary:", r.insight_summary, "Key Innovations:"] ++
  r.key_innovations.map (fun i => "- " ++ i) ++
  ["Novel Methods / Techniques:"] ++
  r.novel_methods.map (fun i => "- " ++ i) ++
  ["Potential Applications:"] ++
  r.potential_applications.map (fun i => "- " ++ i) ++
  ["Extracted Keywords:", "- " ++ joinCommaSpace r.extracted_keywords]

/-- Modelled from the spec: the serialized five-section template text. -/
def serializeRecord (r : InsightRecord) : String :=
  joinNL (serializeLines r)

/-- A field text that does not collide with the parser's line syntax: it is
    trim-invariant, contains no newline, does not begin with a bullet marker,
    and does not begin with a recognized section header. -/
def cleanField (t : String) : Prop :=
  pyStrip t = t ∧ ('\n' ∉ t.data) ∧ hasPre "-" t = false ∧
    hasPre "*" t = false ∧ headerTarget t = none

instance (t : String) : Decidable (cleanField t) := by
  unfold cleanField
  exact inferInstance

/-! ## Theorems -/

/-! ### Character-level lemmas about trimming and splitting -/

/-- A trim-invariant list is invariant under each of the two trimming
    passes separately. -/
theorem strip_inv_parts (l : List Char) (h : stripChars l = l) :
    l.dropWhile isPySpace = l ∧ dropTrail isPySpace l = l := by
  have hlen1 : (l.dropWhile isPySpace).length ≤ l.length :=
    (List.dropWhile_sublist isPySpace).length_le
  have hlen2 : (stripChars l).length ≤ (l.dropWhile isPySpace).length := by
    simpa [stripChars, dropTrail] using
      (List.dropWhile_sublist (l := (l.dropWhile isPySpace).reverse) isPySpace).length_le
  rw [h] at hlen2
  have hlen : (l.dropWhile isPySpace).length = l.length := le_antisymm hlen1 hlen2
  have h1 : l.dropWhile isPySpace = l :=
    (List.dropWhile_sublist isPySpace).eq_of_length hlen
  refine ⟨h1, ?_⟩
  calc dropTrail isPySpace l = dropTrail isPySpace (l.dropWhile isPySpace) := by rw [h1]
  _ = stripChars l := rfl
  _ = l := h

/-- If dropping leading `p`-characters changes nothing, the head does not
    satisfy `p`. -/
theorem head_not_of_dropWhile_eq (p : Char → Bool) (c : Char) (t : List Char)
    (h : (c :: t).dropWhile p = c :: t) : p c = false := by
  by_cases hc : p c = true
  · rw [List.dropWhile_cons_of_pos hc] at h
    have hle := (List.dropWhile_sublist (l := t) p).length_le
    rw [h] at hle
    simp at hle
  · simpa using hc

/-- Trailing-trim invariance transfers to leading-trim invariance of the
    reversal. -/
theorem dropWhile_reverse_of_dropTrail (p : Char → Bool) (l : List Char)
    (h : dropTrail p l = l) : l.reverse.dropWhile p = l.reverse := by
  have := congrArg List.reverse h
  simpa [dropTrail] using this

/-- Prepending anything to a trailing-trim-invariant, non-empty list keeps it
    trailing-trim invariant. -/
theorem dropTrail_append_of_inv (p : Char → Bool) (x y : List Char)
    (hy : dropTrail p y = y) (hne : y ≠ []) : dropTrail p (x ++ y) = x ++ y := by
  have h3 : y.reverse.dropWhile p = y.reverse := dropWhile_reverse_of_dropTrail p y hy
  obtain ⟨c, t, hct⟩ : ∃ c t, y.reverse = c :: t := by
    cases hrev : y.reverse with
    | nil => exact absurd (by simpa using congrArg List.reverse hrev) hne
    | cons c t => exact ⟨c, t, rfl⟩
  have hc : p c = false := head_not_of_dropWhile_eq p c t (hct ▸ h3)
  have hd : y = t.reverse ++ [c] := by
    simpa using congrArg List.reverse hct
  unfold dropTrail
  rw [List.reverse_append, hct, List.cons_append,
    List.dropWhile_cons_of_neg (by simp [hc])]
  simp [hd]

/-- Appending anything to a leading-trim-invariant, non-empty list keeps it
    leading-trim invariant. -/
theorem dropWhile_append_of_inv (p : Char → Bool) (x y : List Char)
    (hx : x.dropWhile p = x) (hne : x ≠ []) : (x ++ y).dropWhile p = x ++ y := by
  obtain ⟨c, t, hct⟩ : ∃ c t, x = c :: t := by
    cases hx2 : x with
    | nil => exact absurd hx2 hne
    | cons c t => exact ⟨c, t, rfl⟩
  subst hct
  have hc : p c = false := head_not_of_dropWhile_eq p c t hx
  rw [List.cons_append, List.dropWhile_cons_of_neg (by simp [hc])]

/-- The split `splitOn1` never returns the empty list of pieces. -/
theorem splitOn1_ne_nil (sep : Char) (x : List Char) : splitOn1 sep x ≠ [] := by
  cases x with
  | nil => simp [splitOn1]
  | cons c rest =>
      simp only [splitOn1]
      split
      · simp
      · cases h : splitOn1 sep rest <;> simp [consHead]

/-- Splitting a separator-free list yields the single whole piece. -/
theorem splitOn1_no_sep (sep : Char) (x : List Char) (hx : sep ∉ x) :
    splitOn1 sep x = [x] := by
  induction x with
  | nil => rfl
  | cons c rest ih =>
      have hc : ¬(c = sep) := fun hc => hx (hc ▸ List.mem_cons_self c rest)
      rw [splitOn1, if_neg hc, ih (fun hm => hx (List.mem_cons_of_mem c hm))]
      rfl

/-- Splitting at the first separator occurrence detaches the separator-free
    head piece. -/
theorem splitOn1_append_sep (sep : Char) (x y : List Char) (hx : sep ∉ x) :
    splitOn1 sep (x ++ sep :: y) = x :: splitOn1 sep y := by
  induction x with
  | nil => simp [splitOn1]
  | cons c rest ih =>
      have hc : ¬(c = sep) := fun hc => hx (hc ▸ List.mem_cons_self c rest)
      rw [List.cons_append, splitOn1, if_neg hc,
        ih (fun hm => hx (List.mem_cons_of_mem c hm))]
      rfl

/-- Prepending one more line to a newline-join adds its characters before a
    newline. -/
theorem joinNL_data_cons (a : String) (l : List String) (hne : l ≠ []) :
    (joinNL (a :: l)).data = a.data ++ '\n' :: (joinNL l).data := by
  cases l with
  | nil => exact absurd rfl hne
  | cons b t => simp [joinNL, List.append_assoc]

/-- Splitting a newline-join of newline-free lines recovers the lines. -/
theorem linesOf_joinNL (ls : List String) (hne : ls ≠ [])
    (h : ∀ l ∈ ls, '\n' ∉ l.data) : linesOf (joinNL ls) = ls := by
  induction ls with
  | nil => exact absurd rfl hne
  | cons a ls ih =>
      cases ls with
      | nil =>
          show (splitOn1 '\n' (joinNL [a]).data).map String.mk = [a]
          rw [show joinNL [a] = a from rfl,
            splitOn1_no_sep '\n' a.data (h a (List.mem_cons_self a []))]
          rfl
      | cons b t =>
          show (splitOn1 '\n' (joinNL (a :: b :: t)).data).map String.mk = _
          rw [joinNL_data_cons a (b :: t) (by simp),
            splitOn1_append_sep '\n' _ _ (h a (List.mem_cons_self a (b :: t))),
            List.map_cons]
          have htail := ih (by simp) (fun x hx => h x (List.mem_cons_of_mem a hx))
          exact congrArg (fun z => a :: z) htail

/-- Adding one more keyword to a comma-space join prepends its characters and
    the two separator characters. -/
theorem joinCommaSpace_data_cons (a : String) (l : List String) (hne : l ≠ []) :
    (joinCommaSpace (a :: l)).data = a.data ++ ',' :: ' ' :: (joinCommaSpace l).data := by
  cases l with
  | nil => exact absurd rfl hne
  | cons b t => simp [joinCommaSpace, List.append_assoc]

/-- A comma-space join of strings headed by a non-empty one is non-empty. -/
theorem joinCommaSpace_data_ne_nil (a : String) (l : List String) (ha : a ≠ "") :
    (joinCommaSpace (a :: l)).data ≠ [] := by
  have hda : a.data ≠ [] := fun hd =>
    ha (show a = "" from by rw [show a = String.mk a.data from rfl, hd])
  cases l with
  | nil => exact hda
  | cons b t =>
      rw [joinCommaSpace_data_cons a (b :: t) (by simp)]
      cases hq : a.data with
      | nil => exact absurd hq hda
      | cons c u => simp

/-- A comma-space join of newline-free strings is newline-free. -/
theorem nl_not_mem_joinCommaSpace (l : List String)
    (h : ∀ k ∈ l, '\n' ∉ k.data) : '\n' ∉ (joinCommaSpace l).data := by
  induction l with
  | nil => intro hc; cases hc
  | cons a l ih =>
      cases l with
      | nil => exact h a (List.mem_cons_self a [])
      | cons b t =>
          rw [joinCommaSpace_data_cons a (b :: t) (by simp)]
          intro hc
          rcases List.mem_append.mp hc with hc | hc
          · exact h a (List.mem_cons_self a (b :: t)) hc
          · rcases hc with _ | ⟨_, hc⟩
            rcases hc with _ | ⟨_, hc⟩
            exact ih (fun k hk => h k (List.mem_cons_of_mem a hk)) hc

/-- Splitting a comma-space join of comma-free, trim-invariant, non-empty
    keywords on commas and trimming the pieces recovers the keywords. -/
theorem kwTokens_joinCommaSpace (l : List String)
    (h : ∀ k ∈ l, pyStrip k = k ∧ k ≠ "" ∧ ',' ∉ k.data) :
    l ≠ [] → kwTokens (joinCommaSpace l) = l := by
  induction l with
  | nil => intro hne; exact absurd rfl hne
  | cons a l ih =>
      intro _
      obtain ⟨ha1, ha2, ha3⟩ := h a (List.mem_cons_self a l)
      have hsc : stripChars a.data = a.data := congrArg String.data ha1
      cases l with
      | nil =>
          show ((splitOn1 ',' (joinCommaSpace [a]).data).map
              (fun p => String.mk (stripChars p))).filter (fun k => k ≠ "") = [a]
          rw [show joinCommaSpace [a] = a from rfl, splitOn1_no_sep ',' a.data ha3,
            List.map_cons, hsc]
          simp [show String.mk a.data = a from rfl, ha2]
      | cons b t =>
          have htail := ih (fun k hk => h k (List.mem_cons_of_mem a hk)) (by simp)
          show ((splitOn1 ',' (joinCommaSpace (a :: b :: t)).data).map
              (fun p => String.mk (stripChars p))).filter (fun k => k ≠ "") = _
          rw [joinCommaSpace_data_cons a (b :: t) (by simp),
            splitOn1_append_sep ',' _ _ ha3]
          obtain ⟨h1, t1, hht⟩ : ∃ h1 t1,
              splitOn1 ',' (joinCommaSpace (b :: t)).data = h1 :: t1 := by
            cases hq : splitOn1 ',' (joinCommaSpace (b :: t)).data with
            | nil => exact absurd hq (splitOn1_ne_nil _ _)
            | cons x y => exact ⟨x, y, rfl⟩
          rw [show splitOn1 ',' (' ' :: (joinCommaSpace (b :: t)).data) =
              consHead ' ' (splitOn1 ',' (joinCommaSpace (b :: t)).data) from by
            rw [splitOn1, if_neg (by decide)], hht]
          show ((a.data :: (' ' :: h1) :: t1).map
              (fun p => String.mk (stripChars p))).filter (fun k => k ≠ "") = _
          rw [List.map_cons, List.map_cons, hsc]
          rw [show String.mk (stripChars (' ' :: h1)) = String.mk (stripChars h1) from rfl]
          rw [show String.mk a.data = a from rfl]
          rw [List.filter_cons_of_pos (by simpa using ha2)]
          have : ((h1 :: t1).map (fun p => String.mk (stripChars p))).filter
              (fun k => k ≠ "") = b :: t := by
            rw [← hht]
            exact htail
          rw [List.map_cons] at this
          rw [this]

/-- A non-empty string has non-empty character data. -/
theorem data_ne_nil (s : String) (h : s ≠ "") : s.data ≠ [] := fun hd =>
  h (by rw [show s = String.mk s.data from rfl, hd])

/-- Bulleting a newline-free text keeps it newline-free. -/
theorem nl_not_mem_dash (i : String) (h : '\n' ∉ i.data) :
    '\n' ∉ ("- " ++ i).data := by
  show '\n' ∉ '-' :: ' ' :: i.data
  simp [h]

/-- A trim-invariant, non-empty text gains no leading or trailing whitespace
    from the `"- "` bullet marker. -/
theorem pyStrip_dash_pre (i : String) (h1 : pyStrip i = i) (h2 : i ≠ "") :
    pyStrip ("- " ++ i) = "- " ++ i := by
  have hd : stripChars i.data = i.data := congrArg String.data h1
  have hnd : i.data ≠ [] := data_ne_nil i h2
  show String.mk (stripChars ('-' :: ' ' :: i.data)) = "- " ++ i
  have hfront : ('-' :: ' ' :: i.data).dropWhile isPySpace = '-' :: ' ' :: i.data :=
    List.dropWhile_cons_of_neg (by decide)
  have hback : dropTrail isPySpace ('-' :: ' ' :: i.data) = '-' :: ' ' :: i.data := by
    simpa using
      dropTrail_append_of_inv isPySpace ['-', ' '] i.data (strip_inv_parts i.data hd).2 hnd
  rw [show stripChars ('-' :: ' ' :: i.data) =
      dropTrail isPySpace (('-' :: ' ' :: i.data).dropWhile isPySpace) from rfl,
    hfront, hback]
  rfl

/-- Removing the bullet-marker set from a trim-invariant item that does not
    start with `-` or `*` removes nothing. -/
theorem dropWhile_bulletChar_eq (i : String) (h1 : pyStrip i = i) (h2 : i ≠ "")
    (h3 : hasPre "-" i = false) (h4 : hasPre "*" i = false) :
    i.data.dropWhile bulletChar = i.data := by
  have hd : stripChars i.data = i.data := congrArg String.data h1
  have hnd : i.data ≠ [] := data_ne_nil i h2
  obtain ⟨c, t, hct⟩ := List.exists_cons_of_ne_nil hnd
  have hsp : isPySpace c = false :=
    head_not_of_dropWhile_eq _ c t (hct ▸ (strip_inv_parts i.data hd).1)
  have h3' : hasPreL ['-'] i.data = false := h3
  have h4' : hasPreL ['*'] i.data = false := h4
  rw [hct] at h3' h4'
  have hcdash : ¬(c = '-') := by intro hc; subst hc; simp [hasPreL] at h3'
  have hcstar : ¬(c = '*') := by intro hc; subst hc; simp [hasPreL] at h4'
  have hcsp : ¬(c = ' ') := by intro hc; subst hc; simp [isPySpace] at hsp
  rw [hct, List.dropWhile_cons_of_neg (by simp [bulletChar, hcdash, hcstar, hcsp])]

/-- A comma-space join of trim-invariant, non-empty keywords is itself
    trim-invariant. -/
theorem joinCommaSpace_strip_inv (l : List String)
    (h : ∀ k ∈ l, pyStrip k = k ∧ k ≠ "") :
    stripChars (joinCommaSpace l).data = (joinCommaSpace l).data := by
  induction l with
  | nil => rfl
  | cons a l ih =>
      obtain ⟨ha1, ha2⟩ := h a (List.mem_cons_self a l)
      have hda : stripChars a.data = a.data := congrArg String.data ha1
      have hnda : a.data ≠ [] := data_ne_nil a ha2
      cases l with
      | nil => exact hda
      | cons b t =>
          have ihs := ih (fun k hk => h k (List.mem_cons_of_mem a hk))
          have hR : (joinCommaSpace (b :: t)).data ≠ [] :=
            joinCommaSpace_data_ne_nil b t (h b (by simp)).2
          rw [joinCommaSpace_data_cons a (b :: t) (by simp)]
          have hfront : (a.data ++ ',' :: ' ' :: (joinCommaSpace (b :: t)).data).dropWhile
              isPySpace = a.data ++ ',' :: ' ' :: (joinCommaSpace (b :: t)).data :=
            dropWhile_append_of_inv isPySpace _ _ (strip_inv_parts a.data hda).1 hnda
          have hback : dropTrail isPySpace
              (a.data ++ ',' :: ' ' :: (joinCommaSpace (b :: t)).data) =
              a.data ++ ',' :: ' ' :: (joinCommaSpace (b :: t)).data := by
            have := dropTrail_append_of_inv isPySpace (a.data ++ [',', ' '])
              (joinCommaSpace (b :: t)).data
              (strip_inv_parts (joinCommaSpace (b :: t)).data ihs).2 hR
            simpa [List.append_assoc] using this
          rw [show stripChars (a.data ++ ',' :: ' ' :: (joinCommaSpace (b :: t)).data) =
              dropTrail isPySpace ((a.data ++ ',' :: ' ' ::
                (joinCommaSpace (b :: t)).data).dropWhile isPySpace) from rfl,
            hfront, hback]

/-- Removing the `"- "` set from a comma-space join headed by a clean keyword
    removes nothing. -/
theorem dropWhile_dashSpace_join (k : String) (ks : List String)
    (hk1 : pyStrip k = k) (hk2 : k ≠ "") (hk3 : hasPre "-" k = false) :
    (joinCommaSpace (k :: ks)).data.dropWhile dashSpace =
      (joinCommaSpace (k :: ks)).data := by
  have hd : stripChars k.data = k.data := congrArg String.data hk1
  have hnd : k.data ≠ [] := data_ne_nil k hk2
  obtain ⟨c, t, hct⟩ := List.exists_cons_of_ne_nil hnd
  have hsp : isPySpace c = false :=
    head_not_of_dropWhile_eq _ c t (hct ▸ (strip_inv_parts k.data hd).1)
  have h3' : hasPreL ['-'] k.data = false := hk3
  rw [hct] at h3'
  have hcdash : ¬(c = '-') := by intro hc; subst hc; simp [hasPreL] at h3'
  have hcsp : ¬(c = ' ') := by intro hc; subst hc; simp [isPySpace] at hsp
  have hkdw : k.data.dropWhile dashSpace = k.data := by
    rw [hct, List.dropWhile_cons_of_neg (by simp [dashSpace, hcdash, hcsp])]
  cases ks with
  | nil => exact hkdw
  | cons b t2 =>
      rw [joinCommaSpace_data_cons k (b :: t2) (by simp)]
      exact dropWhile_append_of_inv dashSpace _ _ hkdw hnd

/-- A non-header line only appends its contributed items to the buffer. -/
theorem processLine_content (st : ParseState) (l : String)
    (hh : headerTarget (pyStrip l) = none) :
    processLine st l =
      { st with current_text :=
          st.current_text ++ contentItems st.current_section (pyStrip l) } := by
  simp only [processLine]
  rw [hh]

/-- In the summary section, a clean non-empty line is appended verbatim. -/
theorem processLine_summary_content (st : ParseState) (S : String)
    (hsec : st.current_section = some Section.summary)
    (h1 : pyStrip S = S) (hh : headerTarget S = none) (h2 : S ≠ "") :
    processLine st S = { st with current_text := st.current_text ++ [S] } := by
  rw [processLine_content st S (by rw [h1]; exact hh), h1, hsec]
  show (⟨st.result, some Section.summary,
      st.current_text ++ (if S ≠ "" then [S] else [])⟩ : ParseState) = _
  rw [if_pos h2]

/-- In a bulleted section, the line `"- " ++ i` for a clean item `i` appends
    exactly `i`. -/
theorem processLine_dash_item (st : ParseState) (i : String) (s : Section)
    (hs : s = Section.innovations ∨ s = Section.methods ∨ s = Section.applications)
    (hsec : st.current_section = some s)
    (h1 : pyStrip i = i) (h2 : i ≠ "") (h3 : hasPre "-" i = false)
    (h4 : hasPre "*" i = false) :
    processLine st ("- " ++ i) = { st with current_text := st.current_text ++ [i] } := by
  rw [processLine_content st ("- " ++ i)
    (by rw [pyStrip_dash_pre i h1 h2]; rfl), pyStrip_dash_pre i h1 h2, hsec]
  have hitem : pyStrip (lstripSet bulletChar ("- " ++ i)) = i := by
    show pyStrip (String.mk (List.dropWhile bulletChar ('-' :: ' ' :: i.data))) = i
    rw [show List.dropWhile bulletChar ('-' :: ' ' :: i.data) =
        List.dropWhile bulletChar i.data from rfl,
      dropWhile_bulletChar_eq i h1 h2 h3 h4]
    exact h1
  have hcontent : contentItems (some s) ("- " ++ i) = [i] := by
    rcases hs with h | h | h <;> subst h <;>
    · show (if (hasPre "-" ("- " ++ i) || hasPre "*" ("- " ++ i)) = true then
          if pyStrip (lstripSet bulletChar ("- " ++ i)) ≠ "" then
            [pyStrip (lstripSet bulletChar ("- " ++ i))] else []
        else []) = [i]
      rw [if_pos (show (hasPre "-" ("- " ++ i) || hasPre "*" ("- " ++ i)) = true from rfl),
        hitem, if_pos h2]
  rw [hcontent]

/-- A run of bullet lines for clean items appends exactly those items, in
    order. -/
theorem foldl_bullet_run (s : Section)
    (hs : s = Section.innovations ∨ s = Section.methods ∨ s = Section.applications)
    (items : List String) (st : ParseState) (hsec : st.current_section = some s)
    (hcl : ∀ i ∈ items,
      pyStrip i = i ∧ i ≠ "" ∧ hasPre "-" i = false ∧ hasPre "*" i = false) :
    (items.map (fun i => "- " ++ i)).foldl processLine st =
      { st with current_text := st.current_text ++ items } := by
  induction items generalizing st with
  | nil => simp
  | cons i items ih =>
      obtain ⟨h1, h2, h3, h4⟩ := hcl i (List.mem_cons_self i items)
      rw [List.map_cons, List.foldl_cons, processLine_dash_item st i s hs hsec h1 h2 h3 h4,
        ih { st with current_text := st.current_text ++ [i] } hsec
          (fun j hj => hcl j (List.mem_cons_of_mem i hj))]
      simp

/-- The methods header after the innovations run commits the buffered items. -/
theorem step_flush_innovations (r : InsightRecord) (buf : List String)
    (hbuf : ∀ i ∈ buf, i ≠ "") (h0 : r.key_innovations = []) :
    processLine ⟨r, some Section.innovations, buf⟩ "Novel Methods / Techniques:" =
      ⟨{ r with key_innovations := buf }, some Section.methods, []⟩ := by
  cases buf with
  | nil =>
      obtain ⟨a, b, c, d, e⟩ := r
      have h0' : b = [] := h0
      subst h0'
      rfl
  | cons x xs =>
      have hstep : processLine ⟨r, some Section.innovations, x :: xs⟩
          "Novel Methods / Techniques:" =
          ⟨{ r with key_innovations := (x :: xs).filter (fun item => item ≠ "") },
            some Section.methods, []⟩ := rfl
      rw [hstep, List.filter_eq_self.mpr (by simpa using hbuf)]

/-- The applications header after the methods run commits the buffered items. -/
theorem step_flush_methods (r : InsightRecord) (buf : List String)
    (hbuf : ∀ i ∈ buf, i ≠ "") (h0 : r.novel_methods = []) :
    processLine ⟨r, some Section.methods, buf⟩ "Potential Applications:" =
      ⟨{ r with novel_methods := buf }, some Section.applications, []⟩ := by
  cases buf with
  | nil =>
      obtain ⟨a, b, c, d, e⟩ := r
      have h0' : c = [] := h0
      subst h0'
      rfl
  | cons x xs =>
      have hstep : processLine ⟨r, some Section.methods, x :: xs⟩
          "Potential Applications:" =
          ⟨{ r with novel_methods := (x :: xs).filter (fun item => item ≠ "") },
            some Section.applications, []⟩ := rfl
      rw [hstep, List.filter_eq_self.mpr (by simpa using hbuf)]

/-- The keywords header after the applications run commits the buffered
    items. -/
theorem step_flush_applications (r : InsightRecord) (buf : List String)
    (hbuf : ∀ i ∈ buf, i ≠ "") (h0 : r.potential_applications = []) :
    processLine ⟨r, some Section.applications, buf⟩ "Extracted Keywords:" =
      ⟨{ r with potential_applications := buf }, some Section.keywords, []⟩ := by
  cases buf with
  | nil =>
      obtain ⟨a, b, c, d, e⟩ := r
      have h0' : d = [] := h0
      subst h0'
      rfl
  | cons x xs =>
      have hstep : processLine ⟨r, some Section.applications, x :: xs⟩
          "Extracted Keywords:" =
          ⟨{ r with potential_applications := (x :: xs).filter (fun item => item ≠ "") },
            some Section.keywords, []⟩ := rfl
      rw [hstep, List.filter_eq_self.mpr (by simpa using hbuf)]

/-- The single keywords line contributes exactly the joined keywords. -/
theorem processLine_kwline (st : ParseState) (kws : List String)
    (hsec : st.current_section = some Section.keywords)
    (h : ∀ k ∈ kws, pyStrip k = k ∧ k ≠ "" ∧ ',' ∉ k.data ∧ hasPre "-" k = false) :
    processLine st ("- " ++ joinCommaSpace kws) =
      { st with current_text := st.current_text ++ kws } := by
  cases kws with
  | nil =>
      rw [processLine_content st ("- " ++ joinCommaSpace []) (by decide), hsec]
      rfl
  | cons k ks =>
      obtain ⟨hk1, hk2, hk3, hk4⟩ := h k (List.mem_cons_self k ks)
      have hJstrip : stripChars (joinCommaSpace (k :: ks)).data =
          (joinCommaSpace (k :: ks)).data :=
        joinCommaSpace_strip_inv _ (fun k' hk' => ⟨(h k' hk').1, (h k' hk').2.1⟩)
      have hJne : (joinCommaSpace (k :: ks)).data ≠ [] :=
        joinCommaSpace_data_ne_nil k ks hk2
      have hJne' : joinCommaSpace (k :: ks) ≠ "" := fun hc =>
        hJne (show (joinCommaSpace (k :: ks)).data = [] from congrArg String.data hc)
      have hpy : pyStrip (joinCommaSpace (k :: ks)) = joinCommaSpace (k :: ks) := by
        show String.mk (stripChars (joinCommaSpace (k :: ks)).data) = _
        rw [hJstrip]
      rw [processLine_content st ("- " ++ joinCommaSpace (k :: ks))
        (by rw [pyStrip_dash_pre _ hpy hJne']; rfl),
        pyStrip_dash_pre _ hpy hJne', hsec]
      have hlstrip : lstripSet dashSpace ("- " ++ joinCommaSpace (k :: ks)) =
          joinCommaSpace (k :: ks) := by
        show String.mk ((joinCommaSpace (k :: ks)).data.dropWhile dashSpace) = _
        rw [dropWhile_dashSpace_join k ks hk1 hk2 hk4]
      have hcontent : contentItems (some Section.keywords)
          ("- " ++ joinCommaSpace (k :: ks)) = k :: ks := by
        show (if hasPre "-" ("- " ++ joinCommaSpace (k :: ks)) = true then
            kwTokens (pyStrip (lstripSet dashSpace ("- " ++ joinCommaSpace (k :: ks))))
          else if containsChar ',' ("- " ++ joinCommaSpace (k :: ks)) = true then
            kwTokens ("- " ++ joinCommaSpace (k :: ks))
          else []) = k :: ks
        rw [if_pos (show hasPre "-" ("- " ++ joinCommaSpace (k :: ks)) = true from rfl),
          hlstrip, hpy,
          kwTokens_joinCommaSpace (k :: ks)
            (fun k' hk' => ⟨(h k' hk').1, (h k' hk').2.1, (h k' hk').2.2.1⟩) (by simp)]
      rw [hcontent]

/-- The final flush of the keywords section with at most 8 clean keywords
    commits them all. -/
theorem finalFlush_keywords (r : InsightRecord) (buf : List String)
    (h0 : r.extracted_keywords = []) (hlen : buf.length ≤ 8) :
    finalFlush ⟨r, some Section.keywords, buf⟩ =
      { r with extracted_keywords := buf } := by
  cases buf with
  | nil =>
      obtain ⟨a, b, c, d, e⟩ := r
      have h0' : e = [] := h0
      subst h0'
      rfl
  | cons x xs =>
      have hstep : finalFlush ⟨r, some Section.keywords, x :: xs⟩ =
          { r with extracted_keywords := (x :: xs).take 8 } := rfl
      rw [hstep, List.take_of_length_le hlen]

/-- C1: on the canonical well-formed response text of the specification, the
    parser returns exactly the record with the stated summary, single bullet
    items, and four comma-split keywords. -/
theorem c1_canonical_response_parses_exactly :
    _parse_structured_output
      "Insight Summary:\nThis method improves turbine efficiency by 12%.\nKey Innovations:\n- Adaptive blade pitch control\nNovel Methods:\n- Reinforcement-learning controller\nPotential Applications:\n- Offshore wind farms\nExtracted Keywords:\n- wind, turbine, reinforcement learning, control" =
      { insight_summary := "This method improves turbine efficiency by 12%."
        key_innovations := ["Adaptive blade pitch control"]
        novel_methods := ["Reinforcement-learning controller"]
        potential_applications := ["Offshore wind farms"]
        extracted_keywords := ["wind", "turbine", "reinforcement learning", "control"] } := by
  decide

/-- C2 counterexample: a "Key Innovations:" header reached while the
    applications section is current.  The claim says every recognized header
    first flushes the buffer into the previous `current_section`'s field, so
    `potential_applications` would have to become `["X"]`; the code only
    flushes when the previous section is the canonical predecessor of the new
    header, so the buffered `"X"` is discarded and the field stays empty. -/
theorem c2_flush_not_unconditional_counterexample :
    (_parse_structured_output
        "Potential Applications:\n- X\nKey Innovations:\n- Y").potential_applications = [] ∧
    (_parse_structured_output
        "Potential Applications:\n- X\nKey Innovations:\n- Y").potential_applications ≠ ["X"] ∧
    (_parse_structured_output
        "Potential Applications:\n- X\nKey Innovations:\n- Y").key_innovations = ["Y"] := by
  decide

/-- C2 (amended): a recognized header line switches `current_section` to its
    section and resets the buffer, and it flushes the buffer into the previous
    section's field exactly when the previous `current_section` is the
    canonical predecessor of the new header in the template order (the summary
    header never flushes); in every other situation the buffered content is
    discarded and the result fields are left unchanged. -/
theorem c2_header_flush_canonical_only (st : ParseState) (l : String) (s : Section)
    (hh : headerTarget (pyStrip l) = some s) :
    (processLine st l).current_section = some s ∧
    (s ≠ Section.summary → (processLine st l).current_text = []) ∧
    (∀ p : Section, canonPred s = some p → st.current_section = some p →
        st.current_text ≠ [] →
        (processLine st l).result = recordSetFlush p st.current_text st.result) ∧
    ((∀ p : Section, canonPred s = some p →
        st.current_section ≠ some p ∨ st.current_text = []) →
        (processLine st l).result = st.result) := by
  simp only [processLine]
  rw [hh]
  cases s with
  | summary =>
      refine ⟨rfl, fun hne => absurd rfl hne, ?_, fun _ => rfl⟩
      intro p hp
      simp [canonPred] at hp
  | innovations =>
      refine ⟨rfl, fun _ => rfl, ?_, ?_⟩
      · intro p hp hsec hbuf
        cases hp
        simp only [canonPred]
        rw [if_pos ⟨hsec, hbuf⟩]
      · intro hno
        simp only [canonPred]
        rw [if_neg]
        rcases hno Section.summary rfl with h | h
        · exact fun hc => h hc.1
        · exact fun hc => hc.2 h
  | methods =>
      refine ⟨rfl, fun _ => rfl, ?_, ?_⟩
      · intro p hp hsec hbuf
        cases hp
        simp only [canonPred]
        rw [if_pos ⟨hsec, hbuf⟩]
      · intro hno
        simp only [canonPred]
        rw [if_neg]
        rcases hno Section.innovations rfl with h | h
        · exact fun hc => h hc.1
        · exact fun hc => hc.2 h
  | applications =>
      refine ⟨rfl, fun _ => rfl, ?_, ?_⟩
      · intro p hp hsec hbuf
        cases hp
        simp only [canonPred]
        rw [if_pos ⟨hsec, hbuf⟩]
      · intro hno
        simp only [canonPred]
        rw [if_neg]
        rcases hno Section.methods rfl with h | h
        · exact fun hc => h hc.1
        · exact fun hc => hc.2 h
  | keywords =>
      refine ⟨rfl, fun _ => rfl, ?_, ?_⟩
      · intro p hp hsec hbuf
        cases hp
        simp only [canonPred]
        rw [if_pos ⟨hsec, hbuf⟩]
      · intro hno
        simp only [canonPred]
        rw [if_neg]
        rcases hno Section.applications rfl with h | h
        · exact fun hc => h hc.1
        · exact fun hc => hc.2 h

/-- C2 (amended) witness: the "Key Innovations:" header with the summary
    section current flushes the buffered summary text. -/
theorem c2_header_flush_canonical_only_witness :
    headerTarget (pyStrip "Key Innovations:") = some Section.innovations ∧
    ((processLine ⟨initRecord, some Section.summary, ["hi"]⟩
        "Key Innovations:").current_section = some Section.innovations ∧
     (Section.innovations ≠ Section.summary →
       (processLine ⟨initRecord, some Section.summary, ["hi"]⟩
          "Key Innovations:").current_text = []) ∧
     (∀ p : Section, canonPred Section.innovations = some p →
        (⟨initRecord, some Section.summary, ["hi"]⟩ : ParseState).current_section = some p →
        (⟨initRecord, some Section.summary, ["hi"]⟩ : ParseState).current_text ≠ [] →
        (processLine ⟨initRecord, some Section.summary, ["hi"]⟩
            "Key Innovations:").result =
          recordSetFlush p ["hi"] initRecord) ∧
     ((∀ p : Section, canonPred Section.innovations = some p →
        (⟨initRecord, some Section.summary, ["hi"]⟩ : ParseState).current_section ≠ some p ∨
        (⟨initRecord, some Section.summary, ["hi"]⟩ : ParseState).current_text = []) →
        (processLine ⟨initRecord, some Section.summary, ["hi"]⟩
            "Key Innovations:").result = initRecord)) :=
  ⟨by decide,
   c2_header_flush_canonical_only ⟨initRecord, some Section.summary, ["hi"]⟩
     "Key Innovations:" Section.innovations (by decide)⟩

/-- C4: a blank abstract short-circuits to the fixed sentinel record; since
    the text-generation call `gen` and the parsing function `parse` are
    arbitrary and absent from the result, neither is invoked. -/
theorem c4_blank_abstract_sentinel (gen : String → Except String String)
    (parse : String → InsightRecord) (abstract : String)
    (h : pyStrip abstract = "") :
    summarize_core gen parse abstract = _get_empty_insight ∧
    _get_empty_insight.insight_summary = "No abstract available for summarization." ∧
    _get_empty_insight.key_innovations = [] ∧
    _get_empty_insight.novel_methods = [] ∧
    _get_empty_insight.potential_applications = [] ∧
    _get_empty_insight.extracted_keywords = [] := by
  refine ⟨?_, rfl, rfl, rfl, rfl, rfl⟩
  unfold summarize_core
  rw [if_pos h]

/-- C4 witness: the whitespace-only abstract `"   "`, with a generation call
    that would fail and a parse that would return the empty record. -/
theorem c4_blank_abstract_sentinel_witness :
    pyStrip "   " = "" ∧
    (summarize_core (fun _ => Except.error "down") (fun _ => initRecord) "   " =
        _get_empty_insight ∧
     _get_empty_insight.insight_summary = "No abstract available for summarization." ∧
     _get_empty_insight.key_innovations = [] ∧
     _get_empty_insight.novel_methods = [] ∧
     _get_empty_insight.potential_applications = [] ∧
     _get_empty_insight.extracted_keywords = []) :=
  ⟨by decide,
   c4_blank_abstract_sentinel (fun _ => Except.error "down") (fun _ => initRecord)
     "   " (by decide)⟩

/-- C5: when the upstream text-generation call fails with description `cause`,
    the failure is surfaced as data: the result has the fixed error template
    around `cause` as its summary and the four sequence fields empty.  The
    parsing function `parse` is arbitrary and absent from the result, so the
    parser is not invoked, and no failure propagates (the function is total). -/
theorem c5_upstream_error_surfaced (gen : String → Except String String)
    (parse : String → InsightRecord) (abstract cause : String)
    (hab : pyStrip abstract ≠ "")
    (hge : gen (_build_summarization_prompt abstract) = Except.error cause) :
    summarize_core gen parse abstract =
      { insight_summary :=
          "Error generating summary: " ++ cause ++ ". Please check API key and network connection."
        key_innovations := []
        novel_methods := []
        potential_applications := []
        extracted_keywords := [] } := by
  unfold summarize_core
  rw [if_neg hab, hge]
  rfl

/-- C5 witness: a generation call that always fails with `"boom"`. -/
theorem c5_upstream_error_surfaced_witness :
    pyStrip "x" ≠ "" ∧
    (fun _ => (Except.error "boom" : Except String String))
        (_build_summarization_prompt "x") = Except.error "boom" ∧
    summarize_core (fun _ => Except.error "boom") (fun _ => initRecord) "x" =
      { insight_summary :=
          "Error generating summary: " ++ "boom" ++ ". Please check API key and network connection."
        key_innovations := []
        novel_methods := []
        potential_applications := []
        extracted_keywords := [] } :=
  ⟨by decide, rfl,
   c5_upstream_error_surfaced (fun _ => Except.error "boom") (fun _ => initRecord)
     "x" "boom" (by decide) rfl⟩

/-- No step of the scan loop writes the `extracted_keywords` field: the only
    flush targets reachable from a header transition are the four other
    sections. -/
theorem processLine_preserves_extracted_keywords (st : ParseState) (l : String) :
    (processLine st l).result.extracted_keywords = st.result.extracted_keywords := by
  simp only [processLine]
  cases hh : headerTarget (pyStrip l) with
  | none => rfl
  | some s =>
      cases s <;> simp only [canonPred] <;> first
        | rfl
        | (split
           · rename_i hc
             cases hc
             simp [recordSetFlush]
           · rfl)

/-- The whole scan loop leaves `extracted_keywords` at its initial value. -/
theorem foldl_preserves_extracted_keywords (ls : List String) (st : ParseState) :
    (ls.foldl processLine st).result.extracted_keywords = st.result.extracted_keywords := by
  induction ls generalizing st with
  | nil => rfl
  | cons l ls ih =>
      rw [List.foldl_cons, ih, processLine_preserves_extracted_keywords]

/-- The first fallback block never touches `extracted_keywords`. -/
theorem firstParagraphFill_preserves_extracted_keywords (raw : String)
    (r : InsightRecord) :
    (firstParagraphFill raw r).extracted_keywords = r.extracted_keywords := by
  unfold firstParagraphFill
  split
  · cases List.filter (fun p => p ≠ "")
        (List.map (fun p => String.mk (stripChars p)) (splitPara raw.data)) <;> rfl
  · rfl

/-- The second fallback block never touches `extracted_keywords`. -/
theorem finalGuard_preserves_extracted_keywords (r : InsightRecord) :
    (finalGuard r).extracted_keywords = r.extracted_keywords := by
  unfold finalGuard
  split <;> rfl

/-- The fallback never touches `extracted_keywords`. -/
theorem paraFallback_preserves_extracted_keywords (raw : String) (r : InsightRecord) :
    (paraFallback raw r).extracted_keywords = r.extracted_keywords := by
  unfold paraFallback
  rw [finalGuard_preserves_extracted_keywords,
    firstParagraphFill_preserves_extracted_keywords]

/-- If the scan produced no keywords in the result so far, the final flush
    yields at most 8 of them. -/
theorem finalFlush_extracted_keywords_le (st : ParseState)
    (h : st.result.extracted_keywords = []) :
    (finalFlush st).extracted_keywords.length ≤ 8 := by
  obtain ⟨r, sec, buf⟩ := st
  have h' : r.extracted_keywords = [] := h
  cases sec with
  | none => simp [finalFlush, h']
  | some s =>
      cases s
      case summary => simp only [finalFlush]; split <;> simp [recordSetFlush, h']
      case innovations => simp only [finalFlush]; split <;> simp [recordSetFlush, h']
      case methods => simp only [finalFlush]; split <;> simp [recordSetFlush, h']
      case applications => simp only [finalFlush]; split <;> simp [recordSetFlush, h']
      case keywords =>
        simp only [finalFlush]
        split
        · exact List.length_take_le 8 _
        · simp [h']

/-- C3: the `extracted_keywords` field of any parse result has length at most
    8: the scan never writes it, and the single final flush that can write it
    truncates the buffer to its first 8 entries. -/
theorem c3_extracted_keywords_le_eight (raw : String) :
    (_parse_structured_output raw).extracted_keywords.length ≤ 8 := by
  unfold _parse_structured_output
  rw [paraFallback_preserves_extracted_keywords]
  refine finalFlush_extracted_keywords_le _ ?_
  rw [foldl_preserves_extracted_keywords]
  rfl

/-- The final guard makes any record's summary non-empty. -/
theorem finalGuard_summary_ne (r : InsightRecord) :
    (finalGuard r).insight_summary ≠ "" := by
  unfold finalGuard
  split
  · show "Unable to generate insight summary." ≠ ""
    decide
  · assumption

theorem paraFallback_summary_ne_empty (raw : String) (r : InsightRecord) :
    (paraFallback raw r).insight_summary ≠ "" := by
  unfold paraFallback
  exact finalGuard_summary_ne _

/-- C7: the parser is a total Lean function (so it terminates and never
    raises on any input string) returning a record whose `insight_summary` is
    non-empty; the four sequence fields are lists by the type of
    `InsightRecord`, present on every result. -/
theorem c7_parse_total_summary_nonempty (raw : String) :
    (_parse_structured_output raw).insight_summary ≠ "" := by
  unfold _parse_structured_output
  exact paraFallback_summary_ne_empty raw _

/-- C8: in the three bulleted sections, a non-header line contributes an item
    to the buffer iff (after trimming) it begins with `-` or `*` and the text
    left after removing the leading run of bullet-marker characters and
    surrounding whitespace is non-empty; the contributed item is exactly that
    remaining text, appended after the existing buffer (no merging), and any
    other line leaves the state untouched (no error, nothing merged). -/
theorem c8_bullet_section_line_filtering (st : ParseState) (l : String) (s : Section)
    (hs : s = Section.innovations ∨ s = Section.methods ∨ s = Section.applications)
    (hsec : st.current_section = some s)
    (hh : headerTarget (pyStrip l) = none) :
    (processLine st l).current_section = st.current_section ∧
    (processLine st l).result = st.result ∧
    (processLine st l).current_text =
      st.current_text ++
        (if (hasPre "-" (pyStrip l) || hasPre "*" (pyStrip l)) = true ∧
            pyStrip (lstripSet bulletChar (pyStrip l)) ≠ "" then
          [pyStrip (lstripSet bulletChar (pyStrip l))]
        else []) := by
  simp only [processLine]
  rw [hh]
  refine ⟨rfl, rfl, ?_⟩
  rw [hsec]
  rcases hs with h | h | h <;> subst h <;> simp only [contentItems] <;>
    split_ifs <;> simp_all

/-- C8 witness: a bullet line in the innovations section contributes exactly
    its stripped text. -/
theorem c8_bullet_section_line_filtering_witness :
    (Section.innovations = Section.innovations ∨
      Section.innovations = Section.methods ∨
      Section.innovations = Section.applications) ∧
    (⟨initRecord, some Section.innovations, []⟩ : ParseState).current_section =
      some Section.innovations ∧
    headerTarget (pyStrip "- hello") = none ∧
    ((processLine ⟨initRecord, some Section.innovations, []⟩ "- hello").current_section =
        (⟨initRecord, some Section.innovations, []⟩ : ParseState).current_section ∧
     (processLine ⟨initRecord, some Section.innovations, []⟩ "- hello").result =
        (⟨initRecord, some Section.innovations, []⟩ : ParseState).result ∧
     (processLine ⟨initRecord, some Section.innovations, []⟩ "- hello").current_text =
        (⟨initRecord, some Section.innovations, []⟩ : ParseState).current_text ++
          (if (hasPre "-" (pyStrip "- hello") || hasPre "*" (pyStrip "- hello")) = true ∧
              pyStrip (lstripSet bulletChar (pyStrip "- hello")) ≠ "" then
            [pyStrip (lstripSet bulletChar (pyStrip "- hello"))]
          else [])) :=
  ⟨Or.inl rfl, rfl, by decide,
   c8_bullet_section_line_filtering ⟨initRecord, some Section.innovations, []⟩
     "- hello" Section.innovations (Or.inl rfl) rfl (by decide)⟩

/-- C10: in the keywords section, a non-header line that (after trimming)
    neither starts with a dash nor contains a comma leaves the parse state
    completely unchanged — even when it is non-empty, it contributes nothing. -/
theorem c10_plain_keyword_line_dropped (st : ParseState) (l : String)
    (hsec : st.current_section = some Section.keywords)
    (hh : headerTarget (pyStrip l) = none)
    (hd : hasPre "-" (pyStrip l) = false)
    (hc : containsChar ',' (pyStrip l) = false) :
    processLine st l = st := by
  simp only [processLine]
  rw [hh]
  have hzero : contentItems st.current_section (pyStrip l) = [] := by
    rw [hsec]
    simp [contentItems, hd, hc]
  rw [hzero]
  simp

/-- C10 witness: the bare keyword line `"wind"` is silently dropped. -/
theorem c10_plain_keyword_line_dropped_witness :
    (⟨initRecord, some Section.keywords, ["solar"]⟩ : ParseState).current_section =
      some Section.keywords ∧
    headerTarget (pyStrip "wind") = none ∧
    hasPre "-" (pyStrip "wind") = false ∧
    containsChar ',' (pyStrip "wind") = false ∧
    processLine ⟨initRecord, some Section.keywords, ["solar"]⟩ "wind" =
      ⟨initRecord, some Section.keywords, ["solar"]⟩ :=
  ⟨rfl, by decide, by decide, by decide,
   c10_plain_keyword_line_dropped ⟨initRecord, some Section.keywords, ["solar"]⟩
     "wind" rfl (by decide) (by decide) (by decide)⟩

/-- Before any header has been seen, a non-header line changes nothing. -/
theorem processLine_no_header_no_section (st : ParseState) (l : String)
    (hh : headerTarget (pyStrip l) = none) (hsec : st.current_section = none) :
    processLine st l = st := by
  simp only [processLine]
  rw [hh]
  have hzero : contentItems st.current_section (pyStrip l) = [] := by
    rw [hsec]
    rfl
  rw [hzero]
  simp

/-- A header-free raw text leaves the whole scan at the initial state. -/
theorem foldl_no_header (ls : List String) (st : ParseState)
    (hh : ∀ l ∈ ls, headerTarget (pyStrip l) = none)
    (hsec : st.current_section = none) :
    ls.foldl processLine st = st := by
  induction ls with
  | nil => rfl
  | cons l ls ih =>
      rw [List.foldl_cons,
        processLine_no_header_no_section st l (hh l (List.mem_cons_self l ls)) hsec]
      exact ih fun x hx => hh x (List.mem_cons_of_mem l hx)

/-- Truncation to a positive number of characters keeps a string non-empty. -/
theorem strTake_ne_empty (m : Nat) (s : String) (hs : s ≠ "") :
    strTake (m + 1) s ≠ "" := by
  obtain ⟨data⟩ := s
  cases data with
  | nil => exact absurd rfl hs
  | cons c cs =>
      intro hcontra
      have h2 : (c :: List.take m cs) = ([] : List Char) :=
        congrArg String.data hcontra
      cases h2

/-- C6: when no line of the raw text starts (after trimming) with a recognized
    header, the four sequence fields stay empty and the summary is the first
    non-blank paragraph (split on blank-line boundaries, trimmed) truncated to
    500 characters, or the fixed placeholder if no such paragraph exists. -/
theorem c6_no_headers_paragraph_fallback (raw : String)
    (hh : ∀ l ∈ linesOf raw, headerTarget (pyStrip l) = none) :
    _parse_structured_output raw =
      { insight_summary :=
          match ((splitPara raw.data).map (fun p => String.mk (stripChars p))).filter
              (fun p => p ≠ "") with
          | [] => "Unable to generate insight summary."
          | p :: _ => strTake 500 p
        key_innovations := []
        novel_methods := []
        potential_applications := []
        extracted_keywords := [] } := by
  unfold _parse_structured_output
  rw [foldl_no_header _ _ hh rfl]
  show paraFallback raw initRecord = _
  unfold paraFallback firstParagraphFill
  rw [if_pos (show initRecord.insight_summary = "" from rfl)]
  cases hps : ((splitPara raw.data).map (fun p => String.mk (stripChars p))).filter
      (fun p => p ≠ "") with
  | nil => rfl
  | cons p t =>
      have hp : p ≠ "" := by
        have hpmem : p ∈ ((splitPara raw.data).map
            (fun p => String.mk (stripChars p))).filter (fun p => p ≠ "") :=
          hps ▸ List.mem_cons_self p t
        simpa using (List.mem_filter.mp hpmem).2
      show finalGuard { initRecord with insight_summary := strTake 500 p } = _
      unfold finalGuard
      rw [if_neg (show ¬({ initRecord with insight_summary := strTake 500 p } :
          InsightRecord).insight_summary = "" from strTake_ne_empty 499 p hp)]
      rfl

/-- C6 witness: a two-paragraph text with no headers. -/
theorem c6_no_headers_paragraph_fallback_witness :
    (∀ l ∈ linesOf "hello world\n\nsecond para", headerTarget (pyStrip l) = none) ∧
    _parse_structured_output "hello world\n\nsecond para" =
      { insight_summary :=
          match ((splitPara ("hello world\n\nsecond para" : String).data).map
              (fun p => String.mk (stripChars p))).filter (fun p => p ≠ "") with
          | [] => "Unable to generate insight summary."
          | p :: _ => strTake 500 p
        key_innovations := []
        novel_methods := []
        potential_applications := []
        extracted_keywords := [] } :=
  ⟨by decide, c6_no_headers_paragraph_fallback "hello world\n\nsecond para" (by decide)⟩

/-- C9 counterexample: the record with summary `"S"` and the single
    innovation item `"a "` satisfies every condition the claim states (no
    field text begins with `-`, `*` or a recognized header, no commas in
    keywords, no embedded newlines), yet the round trip loses the trailing
    space of the item: parsing the serialization yields `"a"`. -/
theorem c9_roundtrip_counterexample :
    (hasPre "-" "a " = false ∧ hasPre "*" "a " = false ∧ headerTarget "a " = none ∧
     ('\n' ∉ ("a " : String).data) ∧
     hasPre "-" "S" = false ∧ hasPre "*" "S" = false ∧ headerTarget "S" = none ∧
     ('\n' ∉ ("S" : String).data)) ∧
    _parse_structured_output (serializeRecord ⟨"S", ["a "], [], [], []⟩) ≠
      ⟨"S", ["a "], [], [], []⟩ := by
  decide

/-- C9 (amended): the round trip is the identity on records whose field texts
    are clean (trim-invariant, newline-free, not beginning with a bullet
    marker or a recognized header) and non-empty, whose keywords are
    additionally comma-free and at most 8, and whose summary is non-empty. -/
theorem c9_roundtrip_amended (r : InsightRecord)
    (hS : cleanField r.insight_summary) (hSne : r.insight_summary ≠ "")
    (hKI : ∀ i ∈ r.key_innovations, cleanField i ∧ i ≠ "")
    (hNM : ∀ i ∈ r.novel_methods, cleanField i ∧ i ≠ "")
    (hPA : ∀ i ∈ r.potential_applications, cleanField i ∧ i ≠ "")
    (hKW : ∀ k ∈ r.extracted_keywords, cleanField k ∧ k ≠ "" ∧ (',' ∉ k.data))
    (hKWlen : r.extracted_keywords.length ≤ 8) :
    _parse_structured_output (serializeRecord r) = r := by
  obtain ⟨S, KI, NM, PA, KW⟩ := r
  obtain ⟨hS1, hS2, hS3, hS4, hS5⟩ := hS
  have hlines : linesOf (serializeRecord ⟨S, KI, NM, PA, KW⟩) =
      serializeLines ⟨S, KI, NM, PA, KW⟩ := by
    apply linesOf_joinNL
    · simp [serializeLines]
    · intro l hl
      simp only [serializeLines, List.mem_append, List.mem_cons, List.mem_map,
        List.not_mem_nil, or_false, false_or] at hl
      rcases hl with ((((((rfl | rfl | rfl) | ⟨i, hi, rfl⟩) | rfl) | ⟨i, hi, rfl⟩) |
          rfl) | ⟨i, hi, rfl⟩) | (rfl | rfl)
      · decide
      · exact hS2
      · decide
      · exact nl_not_mem_dash i (hKI i hi).1.2.1
      · decide
      · exact nl_not_mem_dash i (hNM i hi).1.2.1
      · decide
      · exact nl_not_mem_dash i (hPA i hi).1.2.1
      · decide
      · exact nl_not_mem_dash _ (nl_not_mem_joinCommaSpace KW
          (fun k hk => (hKW k hk).1.2.1))
  have e0 : processLine ⟨initRecord, none, []⟩ "Insight Summary:" =
      ⟨initRecord, some Section.summary, []⟩ := rfl
  have e1 : processLine ⟨initRecord, some Section.summary, []⟩ S =
      ⟨initRecord, some Section.summary, [S]⟩ :=
    processLine_summary_content _ S rfl hS1 hS5 hSne
  have e2 : processLine ⟨initRecord, some Section.summary, [S]⟩ "Key Innovations:" =
      ⟨⟨S, [], [], [], []⟩, some Section.innovations, []⟩ := by
    have hstep : processLine ⟨initRecord, some Section.summary, [S]⟩ "Key Innovations:" =
        ⟨⟨pyStrip (joinSpace [S]), [], [], [], []⟩, some Section.innovations, []⟩ := rfl
    rw [hstep, show joinSpace [S] = S from rfl, hS1]
  have e3 : List.foldl processLine ⟨⟨S, [], [], [], []⟩, some Section.innovations, []⟩
      (KI.map (fun i => "- " ++ i)) =
      ⟨⟨S, [], [], [], []⟩, some Section.innovations, KI⟩ :=
    foldl_bullet_run Section.innovations (Or.inl rfl) KI _ rfl
      (fun i hi => ⟨(hKI i hi).1.1, (hKI i hi).2, (hKI i hi).1.2.2.1,
        (hKI i hi).1.2.2.2.1⟩)
  have e4 : processLine ⟨⟨S, [], [], [], []⟩, some Section.innovations, KI⟩
      "Novel Methods / Techniques:" =
      ⟨⟨S, KI, [], [], []⟩, some Section.methods, []⟩ :=
    step_flush_innovations ⟨S, [], [], [], []⟩ KI (fun i hi => (hKI i hi).2) rfl
  have e5 : List.foldl processLine ⟨⟨S, KI, [], [], []⟩, some Section.methods, []⟩
      (NM.map (fun i => "- " ++ i)) =
      ⟨⟨S, KI, [], [], []⟩, some Section.methods, NM⟩ :=
    foldl_bullet_run Section.methods (Or.inr (Or.inl rfl)) NM _ rfl
      (fun i hi => ⟨(hNM i hi).1.1, (hNM i hi).2, (hNM i hi).1.2.2.1,
        (hNM i hi).1.2.2.2.1⟩)
  have e6 : processLine ⟨⟨S, KI, [], [], []⟩, some Section.methods, NM⟩
      "Potential Applications:" =
      ⟨⟨S, KI, NM, [], []⟩, some Section.applications, []⟩ :=
    step_flush_methods ⟨S, KI, [], [], []⟩ NM (fun i hi => (hNM i hi).2) rfl
  have e7 : List.foldl processLine ⟨⟨S, KI, NM, [], []⟩, some Section.applications, []⟩
      (PA.map (fun i => "- " ++ i)) =
      ⟨⟨S, KI, NM, [], []⟩, some Section.applications, PA⟩ :=
    foldl_bullet_run Section.applications (Or.inr (Or.inr rfl)) PA _ rfl
      (fun i hi => ⟨(hPA i hi).1.1, (hPA i hi).2, (hPA i hi).1.2.2.1,
        (hPA i hi).1.2.2.2.1⟩)
  have e8 : processLine ⟨⟨S, KI, NM, [], []⟩, some Section.applications, PA⟩
      "Extracted Keywords:" =
      ⟨⟨S, KI, NM, PA, []⟩, some Section.keywords, []⟩ :=
    step_flush_applications ⟨S, KI, NM, [], []⟩ PA (fun i hi => (hPA i hi).2) rfl
  have e9 : processLine ⟨⟨S, KI, NM, PA, []⟩, some Section.keywords, []⟩
      ("- " ++ joinCommaSpace KW) =
      ⟨⟨S, KI, NM, PA, []⟩, some Section.keywords, KW⟩ :=
    processLine_kwline _ KW rfl
      (fun k hk => ⟨(hKW k hk).1.1, (hKW k hk).2.1, (hKW k hk).2.2,
        (hKW k hk).1.2.2.1⟩)
  have e10 : finalFlush ⟨⟨S, KI, NM, PA, []⟩, some Section.keywords, KW⟩ =
      ⟨S, KI, NM, PA, KW⟩ :=
    finalFlush_keywords ⟨S, KI, NM, PA, []⟩ KW rfl hKWlen
  have e11 : paraFallback (serializeRecord ⟨S, KI, NM, PA, KW⟩) ⟨S, KI, NM, PA, KW⟩ =
      ⟨S, KI, NM, PA, KW⟩ := by
    unfold paraFallback firstParagraphFill finalGuard
    rw [if_neg (show ¬((⟨S, KI, NM, PA, KW⟩ : InsightRecord).insight_summary = "")
        from hSne)]
    rw [if_neg (show ¬((⟨S, KI, NM, PA, KW⟩ : InsightRecord).insight_summary = "")
        from hSne)]
  unfold _parse_structured_output
  rw [hlines]
  simp only [serializeLines, List.foldl_append, List.foldl_cons, List.foldl_nil]
  rw [e0, e1, e2, e3, e4, e5, e6, e7, e8, e9, e10, e11]

/-- C9 (amended) witness: a concrete clean record round-trips exactly. -/
theorem c9_roundtrip_amended_witness :
    (cleanField ("Good stuff." : String) ∧ ("Good stuff." : String) ≠ "" ∧
     (∀ i ∈ (["alpha"] : List String), cleanField i ∧ i ≠ "") ∧
     (∀ i ∈ (["beta one", "beta two"] : List String), cleanField i ∧ i ≠ "") ∧
     (∀ i ∈ (["gamma"] : List String), cleanField i ∧ i ≠ "") ∧
     (∀ k ∈ (["wind", "turbine"] : List String),
        cleanField k ∧ k ≠ "" ∧ (',' ∉ k.data)) ∧
     (["wind", "turbine"] : List String).length ≤ 8) ∧
    _parse_structured_output (serializeRecord
        ⟨"Good stuff.", ["alpha"], ["beta one", "beta two"], ["gamma"],
          ["wind", "turbine"]⟩) =
      ⟨"Good stuff.", ["alpha"], ["beta one", "beta two"], ["gamma"],
        ["wind", "turbine"]⟩ :=
  ⟨⟨by decide, by decide, by decide, by decide, by decide, by decide, by decide⟩,
   c9_roundtrip_amended
     ⟨"Good stuff.", ["alpha"], ["beta one", "beta two"], ["gamma"],
       ["wind", "turbine"]⟩
     (by decide) (by decide) (by decide) (by decide) (by decide) (by decide)
     (by decide)⟩

end ResearchAuto
